import Mathlib

/-!
Shallow embedding of `src/main_dino.py` (a DINO self-distillation training
script).  Scalars are exact rationals; a tensor of shape (rows, dim) is a
list of rows.  Library primitives that the script calls but does not define
(torch's `softmax` / `log_softmax`, the distributed collective `all_reduce`
and `get_world_size`) are opaque capabilities passed in as records, matching
the spec's external-collaborator scope; everything else is translated from
the source line by line.
-/

/-- Ceiling division on naturals: the least `k` with `a ≤ k * b` (for `b > 0`). -/
def ceilDiv (a b : ℕ) : ℕ := (a + b - 1) / b

/-- A tensor of shape (rows, dim): a list of rows of rationals. -/
abbrev Mat := List (List ℚ)

/-- `torch.chunk(l, chunks)` along dim 0: pieces of size `ceil(len/chunks)`,
as many as needed to cover the list (possibly fewer than `chunks`), the last
piece possibly shorter.  This is torch's documented closed-form semantics. -/
def torchChunk {α : Type} (chunks : ℕ) (l : List α) : List (List α) :=
  let s := ceilDiv l.length chunks
  (List.range (ceilDiv l.length s)).map (fun i => (l.drop (i * s)).take s)

/-- `tensor.mean()` of a vector of batch values. -/
def listMean (l : List ℚ) : ℚ := l.sum / (l.length : ℚ)

/-- Elementwise sum of two vectors (same length in every well-shaped call). -/
def addVec (a b : List ℚ) : List ℚ := a.zipWith (fun x y => x + y) b

/-- `torch.sum(m, dim=0)`: columnwise sum of the rows. -/
def colSum : Mat → List ℚ
  | [] => []
  | [r] => r
  | r :: rs => addVec r (colSum rs)

/-- The torch functional primitives the loss calls, as an opaque capability:
`F.softmax(·, dim=-1)` and `F.log_softmax(·, dim=-1)` applied to one row. -/
structure TorchFunctional where
  softmax : List ℚ → List ℚ
  log_softmax : List ℚ → List ℚ

/-- The distributed collective capability: `dist.all_reduce` (sum across all
workers) and `dist.get_world_size()`. -/
structure Collective where
  all_reduce : List ℚ → List ℚ
  world_size : ℕ

/-- `np.linspace(a, b, n)`: `n` evenly spaced points from `a` to `b` inclusive. -/
def npLinspace (a b : ℚ) (n : ℕ) : List ℚ :=
  if n = 0 then []
  else if n = 1 then [a]
  else (List.range n).map (fun i : ℕ => a + (b - a) * (i : ℚ) / ((n : ℚ) - 1))

/-- State of `DINOLoss` (`main_dino.py` lines 373-388): the fields set by
`__init__` plus the `center` buffer. -/
structure DINOLoss where
  student_temp : ℚ
  center_momentum : ℚ
  ncrops : ℕ
  center : List ℚ
  teacher_temp_schedule : List ℚ
  deriving DecidableEq

/-- `DINOLoss.__init__` (lines 374-388): `center` starts as `zeros(1, out_dim)`
and the per-epoch teacher temperature table is
`concatenate(linspace(warmup_teacher_temp, teacher_temp, warmup_teacher_temp_epochs),
ones(nepochs - warmup_teacher_temp_epochs) * teacher_temp)`. -/
def DINOLoss.init (out_dim : ℕ) (ncrops : ℕ) (warmup_teacher_temp teacher_temp : ℚ)
    (warmup_teacher_temp_epochs nepochs : ℕ)
    (student_temp center_momentum : ℚ) : DINOLoss where
  student_temp := student_temp
  center_momentum := center_momentum
  ncrops := ncrops
  center := List.replicate out_dim 0
  teacher_temp_schedule :=
    npLinspace warmup_teacher_temp teacher_temp warmup_teacher_temp_epochs
      ++ List.replicate (nepochs - warmup_teacher_temp_epochs) teacher_temp

/-- `DINOLoss.update_center` (lines 416-426), run under `@torch.no_grad()`:
`batch_center = sum(teacher_output, dim=0)`; `dist.all_reduce(batch_center)`;
`batch_center = batch_center / (len(teacher_output) * dist.get_world_size())`;
`center = center * center_momentum + batch_center * (1 - center_momentum)`. -/
def DINOLoss.update_center (Col : Collective) (self : DINOLoss)
    (teacher_output : Mat) : DINOLoss :=
  let batch_center := colSum teacher_output
  let batch_center := Col.all_reduce batch_center
  let batch_center := batch_center.map
    (fun x => x / (((teacher_output.length : ℚ)) * ((Col.world_size : ℚ))))
  { self with
    center := self.center.zipWith
      (fun c b => c * self.center_momentum + b * (1 - self.center_momentum))
      batch_center }

/-- The list of pair loss terms accumulated by the double loop of
`DINOLoss.forward` (lines 394-411), in loop order: `student_out` is the
temperature-scaled student output chunked into `ncrops` views, `teacher_out`
the centered/sharpened softmax of the teacher output chunked into 2 views
(`.detach()` is the identity on values), and for each `iq` (enumerating the
teacher chunks) and each `v < len(student_out)` with `v ≠ iq` the loop
accumulates `mean(sum(-q * log_softmax(student_out[v]), dim=-1))`. -/
def DINOLoss.lossTermList (Fn : TorchFunctional) (self : DINOLoss)
    (student_output teacher_output : Mat) (epoch : ℕ) : List ℚ :=
  let student_out := student_output.map (fun row => row.map (fun x => x / self.student_temp))
  let student_out := torchChunk self.ncrops student_out
  let temp := self.teacher_temp_schedule.getD epoch 0
  let teacher_out := teacher_output.map
    (fun row => Fn.softmax (row.zipWith (fun x c => (x - c) / temp) self.center))
  let teacher_out := torchChunk 2 teacher_out
  (teacher_out.enum.map (fun iq_q =>
    (List.range student_out.length).filterMap (fun v =>
      if v = iq_q.1 then none
      else some (listMean (iq_q.2.zipWith
        (fun qrow srow =>
          (qrow.zipWith (fun a b => -a * b) (Fn.log_softmax srow)).sum)
        (student_out.getD v [])))))).flatten

/-- `DINOLoss.forward` (lines 390-414): the accumulated `total_loss` divided by
`n_loss_terms`, plus the `update_center` side effect on the state.  (In exact
arithmetic the unreachable `n_loss_terms = 0` case yields `0 / 0 = 0` where
Python would raise.) -/
def DINOLoss.forward (Fn : TorchFunctional) (Col : Collective) (self : DINOLoss)
    (student_output teacher_output : Mat) (epoch : ℕ) : ℚ × DINOLoss :=
  let terms := self.lossTermList Fn student_output teacher_output epoch
  let total_loss := terms.sum / (terms.length : ℚ)
  (total_loss, self.update_center Col teacher_output)

/-- The ordered teacher/student view pairs of the loss loop: `iq` ranging over
the 2 teacher views, `v` over the `ncrops` student views, skipping `v = iq`. -/
def dinoPairs (ncrops : ℕ) : List (ℕ × ℕ) :=
  ((List.range 2).map (fun iq =>
    (List.range ncrops).filterMap (fun v =>
      if v = iq then none else some (iq, v)))).flatten

/-- The pair loss term of the claim, written over explicit row blocks: the
batch mean, over the `B` samples of the pair, of the per-sample sum over the
output dimension of `-teacher_prob[iq] * log_softmax(student_scaled[v])`,
where `teacher_prob` is the centered/sharpened softmax of the teacher output
and `student_scaled` the `1/student_temp`-scaled student output. -/
def claimPairTerm (Fn : TorchFunctional) (self : DINOLoss)
    (student_output teacher_output : Mat) (epoch B iq v : ℕ) : ℚ :=
  let temp := self.teacher_temp_schedule.getD epoch 0
  let sBlock := ((student_output.map (fun row => row.map (fun x => x / self.student_temp))).drop
    (v * B)).take B
  let qBlock := ((teacher_output.map
    (fun row => Fn.softmax (row.zipWith (fun x c => (x - c) / temp) self.center))).drop
    (iq * B)).take B
  listMean (qBlock.zipWith
    (fun qrow srow => (qrow.zipWith (fun a b => -a * b) (Fn.log_softmax srow)).sum)
    sBlock)

/-- One network parameter: its tensor value (abstracted to one scalar) and its
`requires_grad` flag. -/
structure Param where
  data : ℚ
  requires_grad : Bool
  deriving DecidableEq, Inhabited

/-- The teacher EMA update of `train_one_epoch` (lines 356-360), run under
`torch.no_grad()`: for each pair `(param_q, param_k)` zipped from the student
and teacher parameter lists, `param_k.data = param_k.data * m + (1 - m) * param_q.data`
(the `.detach()` on the student value is the identity on values; the flag of
`param_k` is untouched). -/
def teacherEmaUpdate (m : ℚ) (studentParams teacherParams : List Param) : List Param :=
  studentParams.zipWith
    (fun param_q param_k => Param.mk (param_k.data * m + (1 - m) * param_q.data)
      param_k.requires_grad)
    teacherParams

/-- Teacher initialization of `train_dino` (lines 215-219):
`teacher_without_ddp.load_state_dict(student.module.state_dict())` copies the
student values onto the teacher parameters, then every teacher parameter gets
`requires_grad = False`. -/
def initTeacher (studentParams teacherParams : List Param) : List Param :=
  let loaded := teacherParams.zipWith
    (fun param_k param_q => Param.mk param_q.data param_k.requires_grad) studentParams
  loaded.map (fun p => Param.mk p.data false)

/-- The two parameter sets owned by the runner. -/
structure RunnerState where
  student : List Param
  teacher : List Param
  deriving DecidableEq

/-- One training iteration's parameter effect (lines 336-360): the optimizer
step (an opaque capability `optStep`, acting on the student parameters only)
followed by the teacher EMA update with the current momentum value `m`. -/
def trainIterParams (optStep : List Param → List Param) (m : ℚ)
    (s : RunnerState) : RunnerState :=
  let student := optStep s.student
  RunnerState.mk student (teacherEmaUpdate m student s.teacher)

/-- A sequence of training iterations, each with its own optimizer-step effect
and momentum schedule value. -/
def runIters (iters : List ((List Param → List Param) × ℚ)) (s : RunnerState) :
    RunnerState :=
  iters.foldl (fun st p => trainIterParams p.1 p.2 st) s

/-- A Python float as the loss value observed by the orchestrator: finite (an
exact rational), an infinity, or NaN. -/
inductive PyFloat where
  | fin (q : ℚ)
  | inf
  | neginf
  | nan
  deriving DecidableEq

/-- `math.isfinite` on a loss value. -/
def PyFloat.isfinite : PyFloat → Bool
  | .fin _ => true
  | _ => false

/-- `str(float)` as used by `"...".format(loss.item())`. -/
def PyFloat.str : PyFloat → String
  | .fin q => toString q
  | .inf => "inf"
  | .neginf => "-inf"
  | .nan => "nan"

/-- A fatal abort: the `sys.exit` status code and the message printed first. -/
structure StepAbort where
  code : ℕ
  message : String
  deriving DecidableEq

/-- Outcome of the finiteness check at one step: training proceeds to the
backward pass, or the process aborts. -/
inductive StepOutcome where
  | proceed
  | abort (a : StepAbort)
  deriving DecidableEq

/-- The finiteness check of `train_one_epoch` (lines 332-334), at global step
`it`: `if not math.isfinite(loss.item()): print("Loss is {}, stopping
training".format(loss.item()), force=True); sys.exit(1)`.  The printed message
interpolates only the loss value. -/
def lossFinitenessCheck (it : ℕ) (loss : PyFloat) : StepOutcome :=
  if loss.isfinite then StepOutcome.proceed
  else StepOutcome.abort (StepAbort.mk 1
    ("Loss is " ++ loss.str ++ ", stopping training"))

/-- Result of running the epoch loop's checks over a run: either every step's
check passed (with the number of steps run), or the process aborted at the
first failing step. -/
inductive LoopResult where
  | completed (steps : ℕ)
  | aborted (a : StepAbort)
  deriving DecidableEq

/-- The per-step checks of the step loop, given the loss each step computes:
runs the finiteness check at successive global steps and stops at the first
abort (`sys.exit` ends the process: no later step runs, nothing is retried). -/
def trainLoopChecks : ℕ → List PyFloat → LoopResult
  | it, [] => LoopResult.completed it
  | it, loss :: rest =>
    match lossFinitenessCheck it loss with
    | StepOutcome.proceed => trainLoopChecks (it + 1) rest
    | StepOutcome.abort a => LoopResult.aborted a

/-- Which family of architectures a branch of `train_dino` would build. -/
inductive ModelKind where
  | vit
  | xcit
  | torchvision
  deriving DecidableEq

/-- Outcome of the architecture-selection branch: the model built (none when
the name matched no branch and `student` stays unbound), what was printed, and
whether the branch terminated the process. -/
structure ArchSelection where
  model : Option ModelKind
  printed : List String
  fatal : Bool
  deriving DecidableEq

/-- Python `str.replace`, scanning left to right and rewriting every
non-overlapping occurrence of `pat`; the fuel is the length of the remaining
text (each step consumes at least one character when `pat` is nonempty, as it
is at the single call site, pattern `"deit"`). -/
def pyReplaceAux (pat rep : List Char) : ℕ → List Char → List Char
  | _, [] => []
  | 0, s => s
  | Nat.succ fuel, c :: rest =>
    if pat ≠ [] ∧ pat.isPrefixOf (c :: rest) then
      rep ++ pyReplaceAux pat rep fuel ((c :: rest).drop pat.length)
    else c :: pyReplaceAux pat rep fuel rest

/-- Python `s.replace(pat, rep)` on strings. -/
def pyReplace (s pat rep : String) : String :=
  String.mk (pyReplaceAux pat.data rep.data s.data.length s.data)

/-- The architecture selection of `train_dino` (lines 167-188):
`args.arch = args.arch.replace("deit", "vit")`; then the `vits` branch, the
XCiT hub branch, the torchvision branch, and an `else` that only prints
`"Unknow architecture: ..."` and falls through without exiting. -/
def selectArch (arch : String)
    (vits_keys xcit_list torchvision_keys : List String) : ArchSelection :=
  let arch := pyReplace arch "deit" "vit"
  if arch ∈ vits_keys then ArchSelection.mk (some ModelKind.vit) [] false
  else if arch ∈ xcit_list then ArchSelection.mk (some ModelKind.xcit) [] false
  else if arch ∈ torchvision_keys then ArchSelection.mk (some ModelKind.torchvision) [] false
  else ArchSelection.mk none ["Unknow architecture: " ++ arch] false

/-- An image abstracted to its spatial size and an opaque content id. -/
structure Img where
  size : ℕ
  data : ℕ
  deriving DecidableEq

/-- A stream of random draws, advanced by each random transform. -/
abbrev Rng := ℕ

/-- A torchvision-style transform: image and randomness in, image and advanced
randomness out. -/
abbrev Transfo := Img → Rng → Img × Rng

/-- `transforms.RandomResizedCrop(size, scale, interpolation=BICUBIC)`: output
has the fixed target `size`; its pixels (opaque content) depend on the source
image and one fresh random draw. -/
def randomResizedCrop (size : ℕ) (scale : ℚ × ℚ) : Transfo :=
  fun img r => (Img.mk size (Nat.pair img.data r), r + 1)

/-- `transforms.Compose`: apply the stages left to right. -/
def composeT (stages : List Transfo) : Transfo :=
  fun img r => stages.foldl (fun p f => f p.1 p.2) (img, r)

/-- The state of `DataAugmentationDINO`: its three composed transforms and the
local crop count. -/
structure DataAugmentationDINO where
  global_transfo1 : Transfo
  global_transfo2 : Transfo
  local_transfo : Transfo
  local_crops_number : ℕ

/-- `DataAugmentationDINO.__init__` (lines 430-471): each pipeline is a
`Compose` of a `RandomResizedCrop` (224 for the two global transforms, 96 for
the local one), a photometric augmentation stage (`augmix.aug1` / `aug2` /
`aug` or `flip_and_color_jitter` — external pixel operators, passed here as
opaque capabilities), and `normalize`. -/
def DataAugmentationDINO.init (aug_stage1 aug_stage2 aug_stage_local normalize : Transfo)
    (global_crops_scale local_crops_scale : ℚ × ℚ)
    (local_crops_number : ℕ) : DataAugmentationDINO where
  global_transfo1 := composeT [randomResizedCrop 224 global_crops_scale, aug_stage1, normalize]
  global_transfo2 := composeT [randomResizedCrop 224 global_crops_scale, aug_stage2, normalize]
  local_transfo := composeT [randomResizedCrop 96 local_crops_scale, aug_stage_local, normalize]
  local_crops_number := local_crops_number

/-- The `for i in range(self.local_crops_number)` loop of `__call__`: apply
`local_transfo` `k` times with the threaded randomness, appending in order. -/
def localCropsLoop (f : Transfo) (image : Img) : ℕ → Rng → List Img × Rng
  | 0, r => ([], r)
  | Nat.succ k, r =>
    let c := f image r
    let rest := localCropsLoop f image k c.2
    (c.1 :: rest.1, rest.2)

/-- `DataAugmentationDINO.__call__` (lines 481-496): `crops` gets
`global_transfo1(image)`, then `global_transfo2(image)`, then
`local_crops_number` applications of `local_transfo(image)`. -/
def DataAugmentationDINO.call (self : DataAugmentationDINO) (image : Img)
    (r : Rng) : List Img × Rng :=
  let c1 := self.global_transfo1 image r
  let c2 := self.global_transfo2 image c1.2
  let locals := localCropsLoop self.local_transfo image self.local_crops_number c2.2
  (c1.1 :: c2.1 :: locals.1, locals.2)

/-! ## Helper lemmas -/

theorem ceilDiv_mul_left (B n : ℕ) (hn : 0 < n) : ceilDiv (n * B) n = B := by
  unfold ceilDiv
  have h1 : n * B + n - 1 = n * B + (n - 1) := by omega
  rw [h1, Nat.mul_add_div hn, Nat.div_eq_of_lt (by omega)]
  omega

theorem torchChunk_exact {α : Type} (n B : ℕ) (hn : 0 < n) (hB : 0 < B)
    (l : List α) (hl : l.length = n * B) :
    torchChunk n l = (List.range n).map (fun i => (l.drop (i * B)).take B) := by
  have hs : ceilDiv l.length n = B := by rw [hl]; exact ceilDiv_mul_left B n hn
  have hc : ceilDiv l.length B = n := by
    rw [hl, Nat.mul_comm]; exact ceilDiv_mul_left n B hB
  simp only [torchChunk, hs, hc]

theorem getD_map_range {α : Type} (f : ℕ → α) (n i : ℕ) (hi : i < n) (d : α) :
    ((List.range n).map f).getD i d = f i := by
  simp [List.getD_eq_getElem?_getD, List.getElem?_map, List.getElem?_range hi]

theorem length_filterMap_skip {β : Type} (F : ℕ → β) (iq : ℕ) (l : List ℕ) :
    (l.filterMap (fun v => if v = iq then none else some (F v))).length
      = l.length - l.count iq := by
  induction l with
  | nil => simp
  | cons v t ih =>
    have hcl := List.count_le_length iq t
    by_cases h : v = iq
    · subst h
      simp [List.filterMap_cons, List.count_cons, ih]
    · simp only [List.filterMap_cons, h, if_false, List.length_cons, ih,
        List.count_cons]
      simp only [beq_iff_eq]
      have h2 : ¬ (v = iq) := h
      simp [h2]
      omega

theorem length_filterMap_range_skip {β : Type} (F : ℕ → β) (n iq : ℕ)
    (h : iq < n) :
    ((List.range n).filterMap (fun v => if v = iq then none else some (F v))).length
      = n - 1 := by
  rw [length_filterMap_skip, List.length_range,
    List.count_eq_one_of_mem (List.nodup_range n) (List.mem_range.mpr h)]

/-- The loss loop's accumulated terms, for well-shaped inputs (`ncrops * B`
student rows and `2 * B` teacher rows), are the per-pair batch-mean terms in
pair order. -/
theorem lossTermList_eq (Fn : TorchFunctional) (self : DINOLoss)
    (sOut tOut : Mat) (epoch B : ℕ)
    (hn : 0 < self.ncrops) (hB : 0 < B)
    (hso : sOut.length = self.ncrops * B) (hto : tOut.length = 2 * B) :
    self.lossTermList Fn sOut tOut epoch
      = (dinoPairs self.ncrops).map
          (fun p => claimPairTerm Fn self sOut tOut epoch B p.1 p.2) := by
  simp only [DINOLoss.lossTermList, dinoPairs, claimPairTerm]
  rw [torchChunk_exact self.ncrops B hn hB _ (by simpa using hso),
    torchChunk_exact 2 B (by omega) hB _ (by simpa using hto)]
  rw [show List.range 2 = [0, 1] from rfl]
  simp only [List.map_cons, List.map_nil, List.enum_cons, List.enumFrom,
    List.flatten, List.length_map, List.length_range, List.append_nil, Nat.zero_add]
  rw [List.map_append, List.map_filterMap, List.map_filterMap]
  congr 1
  · apply List.filterMap_congr
    intro v hv
    have hvN : v < self.ncrops := List.mem_range.mp hv
    by_cases h0 : v = 0
    · simp [h0]
    · simp only [h0, if_false, Option.map_some']
      rw [getD_map_range _ _ _ hvN]
  · apply List.filterMap_congr
    intro v hv
    have hvN : v < self.ncrops := List.mem_range.mp hv
    by_cases h1 : v = 1
    · simp [h1]
    · simp only [h1, if_false, Option.map_some']
      rw [getD_map_range _ _ _ hvN]

theorem dinoPairs_length (n : ℕ) (hn : 2 ≤ n) : (dinoPairs n).length = 2 * (n - 1) := by
  unfold dinoPairs
  rw [show List.range 2 = [0, 1] from rfl]
  simp only [List.map_cons, List.map_nil, List.flatten, List.append_nil,
    List.length_append]
  rw [length_filterMap_range_skip _ n 0 (by omega),
    length_filterMap_range_skip _ n 1 (by omega)]
  omega

/-! ## Concrete instances used by witnesses -/

/-- A concrete instantiation of the torch functional capability (the identity
on rows), used to evaluate the model on concrete inputs. -/
def fnId : TorchFunctional := TorchFunctional.mk (fun l => l) (fun l => l)

/-- A concrete single-worker collective: `all_reduce` is the identity. -/
def colId : Collective := Collective.mk (fun l => l) 1

/-- A concrete loss state with `ncrops = 3`. -/
def lossC3 : DINOLoss := DINOLoss.mk 1 (9/10) 3 [0] [1]

/-- A concrete loss state with `ncrops = 2` (no local crops). -/
def lossC2 : DINOLoss := DINOLoss.mk 1 (9/10) 2 [0] [1]

/-- A concrete loss state with `ncrops = 1`. -/
def lossC1 : DINOLoss := DINOLoss.mk 1 (9/10) 1 [0] [1]

/-! ## Claims -/

/-- C1: for `ncrops = N ≥ 3` and well-shaped inputs (`N * B` student rows,
`2 * B` teacher rows, `B > 0` the per-view batch), `DINOLoss.forward`
accumulates exactly `2 * (N - 1)` pair loss terms — each of the 2 teacher
views paired with every student view of different index (the `v != iq`
skip) — each term being the batch mean of the per-sample sum over the output
dimension of `-teacher_prob[iq] * log_softmax(student_scaled[v])`, and
returns their sum divided by their count. -/
theorem c1_pair_loss_terms (Fn : TorchFunctional) (Col : Collective)
    (self : DINOLoss) (sOut tOut : Mat) (epoch B : ℕ)
    (hN : 3 ≤ self.ncrops) (hB : 0 < B)
    (hso : sOut.length = self.ncrops * B) (hto : tOut.length = 2 * B) :
    (self.lossTermList Fn sOut tOut epoch).length = 2 * (self.ncrops - 1) ∧
    self.lossTermList Fn sOut tOut epoch
      = (dinoPairs self.ncrops).map
          (fun p => claimPairTerm Fn self sOut tOut epoch B p.1 p.2) ∧
    (self.forward Fn Col sOut tOut epoch).1
      = (self.lossTermList Fn sOut tOut epoch).sum
          / ((self.lossTermList Fn sOut tOut epoch).length : ℚ) := by
  have heq := lossTermList_eq Fn self sOut tOut epoch B (by omega) hB hso hto
  refine ⟨?_, heq, rfl⟩
  rw [heq, List.length_map, dinoPairs_length self.ncrops (by omega)]

/-- Witness for C1 at a concrete input: `ncrops = 3`, `B = 1`. -/
theorem c1_pair_loss_terms_witness :
    3 ≤ lossC3.ncrops ∧
    (lossC3.lossTermList fnId [[1], [2], [3]] [[1], [2]] 0).length
      = 2 * (lossC3.ncrops - 1) ∧
    lossC3.lossTermList fnId [[1], [2], [3]] [[1], [2]] 0
      = (dinoPairs lossC3.ncrops).map
          (fun p => claimPairTerm fnId lossC3 [[1], [2], [3]] [[1], [2]] 0 1 p.1 p.2) :=
  ⟨by decide,
    (c1_pair_loss_terms fnId colId lossC3 [[1], [2], [3]] [[1], [2]] 0 1
      (by decide) (by decide) (by decide) (by decide)).1,
    (c1_pair_loss_terms fnId colId lossC3 [[1], [2], [3]] [[1], [2]] 0 1
      (by decide) (by decide) (by decide) (by decide)).2.1⟩

/-- C4 counterexample: with `ncrops = 1` (a degenerate call below the 2 global
views) the loop still accumulates 1 pair term (teacher view 1 against student
view 0), which is not `2 * ncrops - 2 = 0` or fewer: there is no degenerate
guard in the code for `ncrops < 2`. -/
theorem c4_counterexample :
    (lossC1.lossTermList fnId [[1]] [[1], [2]] 0).length = 1 ∧
    ¬ ((lossC1.lossTermList fnId [[1]] [[1], [2]] 0).length
        ≤ 2 * lossC1.ncrops - 2) := by decide

/-- C4 (amended): `DINOLoss.forward` returns the accumulated pair-loss sum
divided by the count of pairs actually accumulated (with no degenerate guard
for `ncrops < 2`); with `local_crops_number = 0`, i.e. `ncrops = 2`, it
produces a scalar from exactly 2 pair terms, teacher view 0 paired with
student view 1 and teacher view 1 paired with student view 0, and returns
their mean. -/
theorem c4_two_crop_loss (Fn : TorchFunctional) (Col : Collective)
    (self : DINOLoss) (sOut tOut : Mat) (epoch B : ℕ)
    (h2 : self.ncrops = 2) (hB : 0 < B)
    (hso : sOut.length = self.ncrops * B) (hto : tOut.length = 2 * B) :
    (self.forward Fn Col sOut tOut epoch).1
      = (self.lossTermList Fn sOut tOut epoch).sum
          / ((self.lossTermList Fn sOut tOut epoch).length : ℚ) ∧
    self.lossTermList Fn sOut tOut epoch
      = [claimPairTerm Fn self sOut tOut epoch B 0 1,
         claimPairTerm Fn self sOut tOut epoch B 1 0] ∧
    (self.forward Fn Col sOut tOut epoch).1
      = (claimPairTerm Fn self sOut tOut epoch B 0 1
          + claimPairTerm Fn self sOut tOut epoch B 1 0) / 2 := by
  have heq := lossTermList_eq Fn self sOut tOut epoch B (by omega) hB hso hto
  have hpairs : dinoPairs self.ncrops = [(0, 1), (1, 0)] := by rw [h2]; rfl
  have hterms : self.lossTermList Fn sOut tOut epoch
      = [claimPairTerm Fn self sOut tOut epoch B 0 1,
         claimPairTerm Fn self sOut tOut epoch B 1 0] := by
    rw [heq, hpairs]; rfl
  refine ⟨rfl, hterms, ?_⟩
  show (self.lossTermList Fn sOut tOut epoch).sum
      / ((self.lossTermList Fn sOut tOut epoch).length : ℚ) = _
  rw [hterms]
  simp [List.sum_cons]

/-- Witness for C4's amended theorem at a concrete input: `ncrops = 2`,
`B = 1`. -/
theorem c4_two_crop_loss_witness :
    lossC2.ncrops = 2 ∧
    lossC2.lossTermList fnId [[1], [2]] [[3], [4]] 0
      = [claimPairTerm fnId lossC2 [[1], [2]] [[3], [4]] 0 1 0 1,
         claimPairTerm fnId lossC2 [[1], [2]] [[3], [4]] 0 1 1 0] ∧
    (lossC2.forward fnId colId [[1], [2]] [[3], [4]] 0).1
      = (claimPairTerm fnId lossC2 [[1], [2]] [[3], [4]] 0 1 0 1
          + claimPairTerm fnId lossC2 [[1], [2]] [[3], [4]] 0 1 1 0) / 2 :=
  ⟨by decide,
    (c4_two_crop_loss fnId colId lossC2 [[1], [2]] [[3], [4]] 0 1
      (by decide) (by decide) (by decide) (by decide)).2.1,
    (c4_two_crop_loss fnId colId lossC2 [[1], [2]] [[3], [4]] 0 1
      (by decide) (by decide) (by decide) (by decide)).2.2⟩

/-- Elementwise sum of a list of vectors (the combined all-reduce value when
each worker contributes one vector). -/
def sumVecs : List (List ℚ) → List ℚ
  | [] => []
  | [v] => v
  | v :: vs => addVec v (sumVecs vs)

theorem addVec_assoc (a b c : List ℚ) :
    addVec a (addVec b c) = addVec (addVec a b) c := by
  induction a generalizing b c with
  | nil => simp [addVec]
  | cons x xs ih =>
    cases b with
    | nil => simp [addVec]
    | cons y ys =>
      cases c with
      | nil => simp [addVec]
      | cons z zs =>
        simp only [addVec, List.zipWith_cons_cons] at *
        rw [add_assoc]
        exact congrArg _ (ih ys zs)

theorem colSum_append (A C : Mat) (hA : A ≠ []) (hC : C ≠ []) :
    colSum (A ++ C) = addVec (colSum A) (colSum C) := by
  induction A with
  | nil => exact absurd rfl hA
  | cons r rs ih =>
    cases rs with
    | nil =>
      cases C with
      | nil => exact absurd rfl hC
      | cons c cs => simp [colSum]
    | cons r2 rs2 =>
      have h1 : colSum ((r :: r2 :: rs2) ++ C) = addVec r (colSum ((r2 :: rs2) ++ C)) := by
        cases C with
        | nil => exact absurd rfl hC
        | cons c cs => simp [colSum]
      rw [h1, ih (by simp), addVec_assoc]
      rfl

theorem sumVecs_map_colSum (workers : List Mat) (hw : workers ≠ [])
    (hne : ∀ m ∈ workers, m ≠ []) :
    sumVecs (workers.map colSum) = colSum workers.flatten := by
  induction workers with
  | nil => exact absurd rfl hw
  | cons w ws ih =>
    cases ws with
    | nil => simp [sumVecs]
    | cons w2 ws2 =>
      have hflat : (w2 :: ws2).flatten ≠ [] := by
        have h2 : w2 ≠ [] := hne w2 (by simp)
        cases w2 with
        | nil => exact absurd rfl h2
        | cons x xs => simp
      have hmap : ((w :: w2 :: ws2).map colSum)
          = colSum w :: ((w2 :: ws2).map colSum) := rfl
      rw [hmap]
      have hsv : sumVecs (colSum w :: ((w2 :: ws2).map colSum))
          = addVec (colSum w) (sumVecs ((w2 :: ws2).map colSum)) := rfl
      rw [hsv, ih (by simp) (fun m hm => hne m (by simp [hm]))]
      rw [show (w :: w2 :: ws2).flatten = w ++ (w2 :: ws2).flatten from rfl]
      rw [colSum_append w _ (hne w (by simp)) hflat]

theorem length_flatten_const (ws : List Mat) (n : ℕ)
    (h : ∀ m ∈ ws, m.length = n) : ws.flatten.length = ws.length * n := by
  induction ws with
  | nil => simp
  | cons w rest ih =>
    simp only [List.flatten_cons, List.length_append, List.length_cons]
    rw [h w (by simp), ih (fun m hm => h m (by simp [hm]))]
    ring

/-- C2: with the collective instantiated to its distributed semantics — every
worker holds `n` teacher rows, `all_reduce` returns the elementwise sum of
all workers' local column sums, `world_size` is the worker count — the
`update_center` side effect of every `DINOLoss.forward` call replaces
`center` with `center * center_momentum + batch_mean * (1 - center_momentum)`
elementwise, where `batch_mean` is the mean of the teacher rows across all
workers combined: the all-reduced column sum divided by the total combined
row count (`n * world_size`).  (`update_center` runs under `torch.no_grad()`;
values only are modelled.) -/
theorem c2_center_update (Fn : TorchFunctional) (L : DINOLoss)
    (workers : List Mat) (n j : ℕ) (sOut : Mat) (epoch : ℕ)
    (hn : 0 < n) (hrows : ∀ m ∈ workers, m.length = n)
    (hj : j < workers.length) :
    (L.forward Fn
        (Collective.mk (fun _ => sumVecs (workers.map colSum)) workers.length)
        sOut (workers.getD j []) epoch).2.center
      = L.center.zipWith
          (fun c b => c * L.center_momentum + b * (1 - L.center_momentum))
          ((colSum workers.flatten).map
            (fun x => x / ((workers.flatten.length : ℚ)))) := by
  have hmem : workers.getD j [] ∈ workers := by
    rw [List.getD_eq_getElem?_getD, List.getElem?_eq_getElem hj]
    exact List.getElem_mem hj
  have hlenj : (workers.getD j []).length = n := hrows _ hmem
  have hwne : workers ≠ [] := by
    intro h; rw [h] at hj; simp at hj
  have hne : ∀ m ∈ workers, m ≠ [] := by
    intro m hm h
    have := hrows m hm
    rw [h] at this
    simp at this
    omega
  have hflatlen : workers.flatten.length = workers.length * n :=
    length_flatten_const workers n hrows
  show (L.update_center _ (workers.getD j [])).center = _
  unfold DINOLoss.update_center
  simp only
  rw [sumVecs_map_colSum workers hwne hne]
  have hdiv : (((workers.getD j []).length : ℚ)) * ((workers.length : ℕ) : ℚ)
      = ((workers.flatten.length : ℚ)) := by
    rw [hlenj, hflatlen]
    push_cast
    ring
  rw [hdiv]

/-- Witness for C2: two workers of two rows each; worker 0 updates its center
by the EMA of the mean over all four combined rows. -/
theorem c2_center_update_witness :
    (0 : ℕ) < 2 ∧
    ((DINOLoss.mk 1 (9/10) 3 [0, 0] [1]).forward fnId
        (Collective.mk
          (fun _ => sumVecs ([[[1, 2], [3, 4]], [[5, 6], [7, 8]]].map colSum)) 2)
        [[0, 0]] ([[[1, 2], [3, 4]], [[5, 6], [7, 8]]].getD 0 []) 0).2.center
      = ([0, 0] : List ℚ).zipWith
          (fun c b => c * (9/10) + b * (1 - (9/10)))
          ((colSum ([[[1, 2], [3, 4]], [[5, 6], [7, 8]]] : List Mat).flatten).map
            (fun x => x / ((([[[1, 2], [3, 4]], [[5, 6], [7, 8]]] : List Mat).flatten.length : ℚ)))) :=
  ⟨by decide,
    c2_center_update fnId (DINOLoss.mk 1 (9/10) 3 [0, 0] [1])
      [[[1, 2], [3, 4]], [[5, 6], [7, 8]]] 2 0 [[0, 0]] 0
      (by decide) (by decide) (by decide)⟩

theorem zipWith_getD {α β γ : Type} (f : α → β → γ) :
    ∀ (as : List α) (bs : List β) (i : ℕ), i < as.length → i < bs.length →
      ∀ (da : α) (db : β) (dc : γ),
        (List.zipWith f as bs).getD i dc = f (as.getD i da) (bs.getD i db) := by
  intro as
  induction as with
  | nil => intro bs i hi; simp at hi
  | cons a at' ih =>
    intro bs i hi hbi da db dc
    cases bs with
    | nil => simp at hbi
    | cons b bt =>
      cases i with
      | zero => simp
      | succ k =>
        simp only [List.zipWith_cons_cons, List.getD_cons_succ]
        exact ih bt k (by simpa using hi) (by simpa using hbi) da db dc

theorem mem_zipWith_param {γ : Type} (f : Param → Param → γ) :
    ∀ (as bs : List Param) (p : γ), p ∈ List.zipWith f as bs →
      ∃ a ∈ as, ∃ b ∈ bs, p = f a b := by
  intro as
  induction as with
  | nil => intro bs p hp; simp at hp
  | cons a at' ih =>
    intro bs p hp
    cases bs with
    | nil => simp at hp
    | cons b bt =>
      simp only [List.zipWith_cons_cons, List.mem_cons] at hp
      rcases hp with h | h
      · exact ⟨a, by simp, b, by simp, h⟩
      · rcases ih bt p h with ⟨a2, ha2, b2, hb2, hfe⟩
        exact ⟨a2, by simp [ha2], b2, by simp [hb2], hfe⟩

/-- C3: after the optimizer step of an iteration, the teacher EMA update sets
every teacher parameter to `m * teacher + (1 - m) * student` (the momentum
schedule value `m` of the step), preserving the `requires_grad` flag (the
update runs under `torch.no_grad()` and is outside the gradient graph); in
particular with `m = 0.9`, all student values `2` and all teacher values `1`
with gradient tracking off, every updated teacher parameter is `1.1` and
still requires no gradient. -/
theorem c3_teacher_ema (m : ℚ) (st te : List Param)
    (hlen : st.length = te.length) :
    (teacherEmaUpdate m st te).length = te.length ∧
    (∀ i, i < te.length →
      (teacherEmaUpdate m st te).getD i default
        = Param.mk
            (m * (te.getD i default).data + (1 - m) * (st.getD i default).data)
            ((te.getD i default).requires_grad)) ∧
    (m = 9/10 → (∀ p ∈ st, p.data = 2) →
      (∀ p ∈ te, p.data = 1 ∧ p.requires_grad = false) →
      ∀ p ∈ teacherEmaUpdate m st te, p.data = 11/10 ∧ p.requires_grad = false) := by
  refine ⟨?_, ?_, ?_⟩
  · unfold teacherEmaUpdate
    rw [List.length_zipWith, hlen, Nat.min_self]
  · intro i hi
    unfold teacherEmaUpdate
    rw [zipWith_getD _ st te i (by omega) hi default default default]
    rw [mul_comm ((te.getD i default).data) m]
  · intro hm hst hte p hp
    rcases mem_zipWith_param _ st te p hp with ⟨q, hq, k, hk, rfl⟩
    rcases hte k hk with ⟨hk1, hk2⟩
    rw [hst q hq, hk1, hk2, hm]
    constructor
    · norm_num
    · rfl

/-- Witness for C3 at concrete parameter lists (`m = 0.9`, students all `2.0`,
teachers all `1.0` and frozen): every updated teacher parameter is `1.1` and
frozen. -/
theorem c3_teacher_ema_witness :
    (teacherEmaUpdate (9/10) [Param.mk 2 true, Param.mk 2 true]
        [Param.mk 1 false, Param.mk 1 false]).length = 2 ∧
    (teacherEmaUpdate (9/10) [Param.mk 2 true, Param.mk 2 true]
        [Param.mk 1 false, Param.mk 1 false]).getD 0 default
      = Param.mk (11/10) false ∧
    (teacherEmaUpdate (9/10) [Param.mk 2 true, Param.mk 2 true]
        [Param.mk 1 false, Param.mk 1 false]).getD 1 default
      = Param.mk (11/10) false := by
  have h := c3_teacher_ema (9/10) [Param.mk 2 true, Param.mk 2 true]
    [Param.mk 1 false, Param.mk 1 false] rfl
  refine ⟨h.1, (h.2.1 0 (by decide)).trans ?_, (h.2.1 1 (by decide)).trans ?_⟩
  all_goals
    show Param.mk ((9/10) * 1 + (1 - 9/10) * 2) false = Param.mk (11/10) false
    norm_num [Param.mk.injEq]

theorem npLinspace_length (a b : ℚ) (n : ℕ) : (npLinspace a b n).length = n := by
  unfold npLinspace
  by_cases h0 : n = 0
  · simp [h0]
  · by_cases h1 : n = 1
    · simp [h0, h1]
    · simp [h0, h1]

theorem npLinspace_getD (a b : ℚ) (n i : ℕ) (hi : i < n) :
    (npLinspace a b n).getD i 0 = a + (b - a) * (i : ℚ) / ((n : ℚ) - 1) := by
  unfold npLinspace
  by_cases h1 : n = 1
  · subst h1
    interval_cases i
    simp
  · have h0 : ¬ n = 0 := by omega
    simp only [h0, if_false, h1]
    rw [getD_map_range _ n i hi]

/-- C5: the teacher temperature schedule built by `DINOLoss.__init__` is a
per-epoch table of length `nepochs` (for `warmup_teacher_temp_epochs ≤
nepochs`): its first `warmup_teacher_temp_epochs` entries are the linear ramp
from `warmup_teacher_temp` to `teacher_temp` (the `np.linspace` law), every
remaining entry equals `teacher_temp`, and every epoch in `[0, nepochs)` reads
the table within bounds. -/
theorem c5_teacher_temp_schedule (out_dim ncrops : ℕ) (w t st cm : ℚ)
    (warm nep : ℕ) (hwe : warm ≤ nep) :
    (DINOLoss.init out_dim ncrops w t warm nep st cm).teacher_temp_schedule.length
      = nep ∧
    (∀ i, i < warm →
      (DINOLoss.init out_dim ncrops w t warm nep st cm).teacher_temp_schedule.getD i 0
        = w + (t - w) * (i : ℚ) / ((warm : ℚ) - 1)) ∧
    (∀ i, warm ≤ i → i < nep →
      (DINOLoss.init out_dim ncrops w t warm nep st cm).teacher_temp_schedule.getD i 0
        = t) ∧
    (∀ epoch, epoch < nep →
      epoch
        < (DINOLoss.init out_dim ncrops w t warm nep st cm).teacher_temp_schedule.length) := by
  have hlen : (DINOLoss.init out_dim ncrops w t warm nep st cm).teacher_temp_schedule.length
      = nep := by
    simp only [DINOLoss.init, List.length_append, npLinspace_length,
      List.length_replicate]
    omega
  refine ⟨hlen, ?_, ?_, fun epoch he => by omega⟩
  · intro i hi
    simp only [DINOLoss.init]
    rw [List.getD_eq_getElem?_getD,
      List.getElem?_append_left (by rw [npLinspace_length]; exact hi),
      ← List.getD_eq_getElem?_getD]
    exact npLinspace_getD w t warm i hi
  · intro i hge hlt
    simp only [DINOLoss.init]
    rw [List.getD_eq_getElem?_getD,
      List.getElem?_append_right (by rw [npLinspace_length]; exact hge),
      npLinspace_length,
      List.getElem?_replicate_of_lt (by omega)]
    rfl

/-- Witness for C5: `warmup = 3`, `nepochs = 5`, ramping `1/25 → 7/100`. -/
theorem c5_teacher_temp_schedule_witness :
    (DINOLoss.init 4 8 (1/25) (7/100) 3 5 (1/10) (9/10)).teacher_temp_schedule.length = 5 ∧
    (DINOLoss.init 4 8 (1/25) (7/100) 3 5 (1/10) (9/10)).teacher_temp_schedule.getD 1 0
      = 11/200 ∧
    (DINOLoss.init 4 8 (1/25) (7/100) 3 5 (1/10) (9/10)).teacher_temp_schedule.getD 4 0
      = 7/100 := by
  have h := c5_teacher_temp_schedule 4 8 (1/25) (7/100) (1/10) (9/10) 3 5 (by omega)
  refine ⟨h.1, (h.2.1 1 (by omega)).trans (by norm_num), h.2.2.1 4 (by omega) (by omega)⟩

/-- C6 counterexample: the abort of the finiteness check does not report the
step at which it occurred — at steps 3 and 4 an infinite loss produces the
very same report, `exit(1)` with the message "Loss is inf, stopping training",
which carries no step index; so the claim that the halt reports "the step at
which it occurred" fails on the code. -/
theorem c6_counterexample :
    lossFinitenessCheck 3 PyFloat.inf
      = StepOutcome.abort (StepAbort.mk 1 "Loss is inf, stopping training") ∧
    lossFinitenessCheck 3 PyFloat.inf = lossFinitenessCheck 4 PyFloat.inf ∧
    (3 : ℕ) ≠ 4 := by decide

theorem trainLoopChecks_aborts (start : ℕ) :
    ∀ (losses : List PyFloat) (k : ℕ), k < losses.length →
      (∀ j, j < k → (losses.getD j PyFloat.nan).isfinite = true) →
      (losses.getD k PyFloat.nan).isfinite = false →
      trainLoopChecks start losses
        = LoopResult.aborted (StepAbort.mk 1
            ("Loss is " ++ (losses.getD k PyFloat.nan).str ++ ", stopping training")) := by
  intro losses
  induction losses generalizing start with
  | nil => intro k hk; simp at hk
  | cons loss rest ih =>
    intro k hk hfin hnf
    cases k with
    | zero =>
      simp only [List.getD_cons_zero] at hnf ⊢
      unfold trainLoopChecks lossFinitenessCheck
      rw [hnf]
      simp
    | succ k2 =>
      have hfin0 : loss.isfinite = true := by
        have := hfin 0 (by omega)
        simpa using this
      simp only [List.getD_cons_succ] at hnf ⊢
      unfold trainLoopChecks lossFinitenessCheck
      rw [hfin0]
      simp only
      exact ih (start + 1) k2 (by simpa using hk)
        (fun j hj => by simpa using hfin (j + 1) (by omega)) hnf

/-- C6 (amended): if the loss computed at some step of the run is non-finite
and every earlier step's loss was finite, training halts fatally at that step:
`sys.exit(1)` (a non-zero status) is reached immediately, no later step runs
and nothing is retried, and the abort message reports the non-finite loss
value ("Loss is ..., stopping training" — the step index is not part of the
report). -/
theorem c6_nonfinite_loss_fatal (losses : List PyFloat) (k : ℕ)
    (hk : k < losses.length)
    (hfin : ∀ j, j < k → (losses.getD j PyFloat.nan).isfinite = true)
    (hnf : (losses.getD k PyFloat.nan).isfinite = false) :
    trainLoopChecks 0 losses
      = LoopResult.aborted (StepAbort.mk 1
          ("Loss is " ++ (losses.getD k PyFloat.nan).str ++ ", stopping training")) ∧
    (StepAbort.mk 1
        ("Loss is " ++ (losses.getD k PyFloat.nan).str ++ ", stopping training")).code
      ≠ 0 := by
  exact ⟨trainLoopChecks_aborts 0 losses k hk hfin hnf, by simp⟩

/-- Witness for C6's amended theorem: one finite step, then a NaN loss. -/
theorem c6_nonfinite_loss_fatal_witness :
    trainLoopChecks 0 [PyFloat.fin 1, PyFloat.nan, PyFloat.fin 2]
      = LoopResult.aborted (StepAbort.mk 1 "Loss is nan, stopping training") ∧
    (StepAbort.mk 1 "Loss is nan, stopping training").code ≠ 0 :=
  c6_nonfinite_loss_fatal [PyFloat.fin 1, PyFloat.nan, PyFloat.fin 2] 1
    (by decide) (by decide) (by decide)

theorem initTeacher_data :
    ∀ (st te : List Param), st.length = te.length →
      (initTeacher st te).map Param.data = st.map Param.data := by
  intro st
  induction st with
  | nil =>
    intro te hlen
    cases te with
    | nil => rfl
    | cons k kt => simp at hlen
  | cons q qt ih =>
    intro te hlen
    cases te with
    | nil => simp at hlen
    | cons k kt =>
      have h := ih kt (by simpa using hlen)
      simp only [initTeacher] at h ⊢
      simp only [List.zipWith_cons_cons, List.map_cons]
      rw [h]

theorem initTeacher_requires_grad (st te : List Param) :
    ∀ p ∈ initTeacher st te, p.requires_grad = false := by
  intro p hp
  unfold initTeacher at hp
  rcases List.mem_map.mp hp with ⟨q, _, rfl⟩
  rfl

theorem teacherEmaUpdate_requires_grad (m : ℚ) :
    ∀ (st te : List Param), (∀ p ∈ te, p.requires_grad = false) →
      ∀ p ∈ teacherEmaUpdate m st te, p.requires_grad = false := by
  intro st te hte p hp
  rcases mem_zipWith_param _ st te p hp with ⟨q, _, k, hk, rfl⟩
  exact hte k hk

theorem runIters_requires_grad :
    ∀ (iters : List ((List Param → List Param) × ℚ)) (s : RunnerState),
      (∀ p ∈ s.teacher, p.requires_grad = false) →
      ∀ p ∈ (runIters iters s).teacher, p.requires_grad = false := by
  intro iters
  induction iters with
  | nil => intro s hs; exact hs
  | cons step rest ih =>
    intro s hs
    have hstep : ∀ p ∈ (trainIterParams step.1 step.2 s).teacher,
        p.requires_grad = false :=
      teacherEmaUpdate_requires_grad step.2 _ _ hs
    exact ih (trainIterParams step.1 step.2 s) hstep

/-- C7: before step 0 the teacher parameters are an exact copy of the student
values and every teacher parameter has gradient tracking disabled; after any
sequence of training iterations — each an arbitrary optimizer step on the
student followed by the EMA rule on the teacher, which is the only write the
loop performs on teacher parameters — every teacher parameter still has
gradient tracking disabled, so no teacher parameter ever receives a direct
gradient update. -/
theorem c7_teacher_isolation (studentP teacherP : List Param)
    (hlen : studentP.length = teacherP.length) :
    (initTeacher studentP teacherP).map Param.data = studentP.map Param.data ∧
    (∀ p ∈ initTeacher studentP teacherP, p.requires_grad = false) ∧
    (∀ iters,
      ∀ p ∈ (runIters iters
          (RunnerState.mk studentP (initTeacher studentP teacherP))).teacher,
        p.requires_grad = false) := by
  refine ⟨initTeacher_data studentP teacherP hlen,
    initTeacher_requires_grad studentP teacherP, ?_⟩
  intro iters
  exact runIters_requires_grad iters _ (initTeacher_requires_grad studentP teacherP)

/-- Witness for C7 at concrete parameters and one concrete iteration. -/
theorem c7_teacher_isolation_witness :
    (initTeacher [Param.mk 2 true, Param.mk 3 true]
        [Param.mk 5 true, Param.mk 7 false]).map Param.data
      = [Param.mk 2 true, Param.mk 3 true].map Param.data ∧
    ((initTeacher [Param.mk 2 true, Param.mk 3 true]
        [Param.mk 5 true, Param.mk 7 false]).getD 0 default).requires_grad
      = false ∧
    ((runIters [(fun l => l.map (fun p => Param.mk (p.data + 1) p.requires_grad), 1/2)]
        (RunnerState.mk [Param.mk 2 true, Param.mk 3 true]
          (initTeacher [Param.mk 2 true, Param.mk 3 true]
            [Param.mk 5 true, Param.mk 7 false]))).teacher.getD 0 default).requires_grad
      = false := by
  have h := c7_teacher_isolation [Param.mk 2 true, Param.mk 3 true]
    [Param.mk 5 true, Param.mk 7 false] rfl
  refine ⟨h.1, ?_, ?_⟩
  · exact h.2.1 _ (by decide)
  · apply h.2.2 [(fun l => l.map (fun p => Param.mk (p.data + 1) p.requires_grad), 1/2)]
    rw [List.getD_eq_getElem?_getD, List.getElem?_eq_getElem (by decide)]
    exact List.getElem_mem _

theorem composeT_crop_size (sz : ℕ) (scale : ℚ × ℚ) (aug norm : Transfo)
    (haug : ∀ i r, ((aug i r).1).size = i.size)
    (hnorm : ∀ i r, ((norm i r).1).size = i.size)
    (img : Img) (r : Rng) :
    ((composeT [randomResizedCrop sz scale, aug, norm] img r).1).size = sz := by
  simp only [composeT, List.foldl_cons, List.foldl_nil]
  rw [hnorm, haug]
  rfl

theorem localCropsLoop_length (f : Transfo) (image : Img) :
    ∀ (k : ℕ) (r : Rng), (localCropsLoop f image k r).1.length = k := by
  intro k
  induction k with
  | zero => intro r; rfl
  | succ k2 ih =>
    intro r
    simp only [localCropsLoop, List.length_cons]
    rw [ih]

theorem localCropsLoop_size (f : Transfo) (image : Img) (s : ℕ)
    (hf : ∀ r, ((f image r).1).size = s) :
    ∀ (k : ℕ) (r : Rng), ∀ c ∈ (localCropsLoop f image k r).1, c.size = s := by
  intro k
  induction k with
  | zero => intro r c hc; simp [localCropsLoop] at hc
  | succ k2 ih =>
    intro r c hc
    simp only [localCropsLoop, List.mem_cons] at hc
    rcases hc with rfl | hc
    · exact hf r
    · exact ih _ c hc

/-- C8: for every image, randomness and `local_crops_number = K`, the
augmentation pipeline returns exactly `2 + K` views in the fixed order
`[global_view_1, global_view_2, local_view_1, ..., local_view_K]`: the first
two views are the outputs of the two global transforms (crop target size 224)
and the remaining `K` are outputs of the local transform (crop target size
96).  The photometric stages and `normalize` are external pixel operators,
assumed size-preserving. -/
theorem c8_multicrop_views (t : DataAugmentationDINO)
    (aug_stage1 aug_stage2 aug_stage_local normalize : Transfo)
    (gs ls : ℚ × ℚ) (K : ℕ)
    (ht : t = DataAugmentationDINO.init aug_stage1 aug_stage2 aug_stage_local
      normalize gs ls K)
    (h1 : ∀ i r, ((aug_stage1 i r).1).size = i.size)
    (h2 : ∀ i r, ((aug_stage2 i r).1).size = i.size)
    (hL : ∀ i r, ((aug_stage_local i r).1).size = i.size)
    (hN : ∀ i r, ((normalize i r).1).size = i.size)
    (image : Img) (r : Rng) :
    (t.call image r).1.length = 2 + K ∧
    (t.call image r).1.getD 0 (Img.mk 0 0) = (t.global_transfo1 image r).1 ∧
    (t.call image r).1.getD 1 (Img.mk 0 0)
      = (t.global_transfo2 image (t.global_transfo1 image r).2).1 ∧
    (t.call image r).1.drop 2
      = (localCropsLoop t.local_transfo image K
          (t.global_transfo2 image (t.global_transfo1 image r).2).2).1 ∧
    (∀ c ∈ (t.call image r).1.take 2, c.size = 224) ∧
    (∀ c ∈ (t.call image r).1.drop 2, c.size = 96) := by
  subst ht
  simp only [DataAugmentationDINO.call, DataAugmentationDINO.init]
  refine ⟨?_, rfl, rfl, rfl, ?_, ?_⟩
  · simp only [List.length_cons, localCropsLoop_length]
    omega
  · intro c hc
    simp only [List.take_succ_cons, List.take_zero, List.mem_cons,
      List.not_mem_nil, or_false] at hc
    rcases hc with rfl | rfl
    · exact composeT_crop_size 224 gs aug_stage1 normalize h1 hN image r
    · exact composeT_crop_size 224 gs aug_stage2 normalize h2 hN image _
  · intro c hc
    simp only [List.drop_succ_cons, List.drop_zero] at hc
    exact localCropsLoop_size _ image 96
      (fun r2 => composeT_crop_size 96 ls aug_stage_local normalize hL hN image r2)
      K _ c hc

/-- Witness for C8 with identity photometric stages, `K = 2`, a 500-pixel
source image. -/
theorem c8_multicrop_views_witness :
    ((DataAugmentationDINO.init (fun i r => (i, r)) (fun i r => (i, r))
        (fun i r => (i, r)) (fun i r => (i, r)) (2/5, 1) (1/20, 2/5) 2).call
        (Img.mk 500 0) 0).1.length = 2 + 2 ∧
    (∀ c ∈ ((DataAugmentationDINO.init (fun i r => (i, r)) (fun i r => (i, r))
        (fun i r => (i, r)) (fun i r => (i, r)) (2/5, 1) (1/20, 2/5) 2).call
        (Img.mk 500 0) 0).1.take 2, c.size = 224) ∧
    (∀ c ∈ ((DataAugmentationDINO.init (fun i r => (i, r)) (fun i r => (i, r))
        (fun i r => (i, r)) (fun i r => (i, r)) (2/5, 1) (1/20, 2/5) 2).call
        (Img.mk 500 0) 0).1.drop 2, c.size = 96) := by
  have h := c8_multicrop_views _ (fun i r => (i, r)) (fun i r => (i, r))
    (fun i r => (i, r)) (fun i r => (i, r)) (2/5, 1) (1/20, 2/5) 2 rfl
    (fun _ _ => rfl) (fun _ _ => rfl) (fun _ _ => rfl) (fun _ _ => rfl)
    (Img.mk 500 0) 0
  exact ⟨h.1, h.2.2.2.2.1, h.2.2.2.2.2⟩

/-- C9: when the architecture name (after the `deit → vit` rewrite) is not a
known ViT, XCiT-hub or torchvision model, the selection branch of `train_dino`
only prints "Unknow architecture: ..." — it is not fatal, control proceeds
past the branch, and no model is bound (the later uses of `student` refer to
an undefined name). -/
theorem c9_unknown_arch_not_fatal (arch : String)
    (vits_keys xcit_list torchvision_keys : List String)
    (h1 : pyReplace arch "deit" "vit" ∉ vits_keys)
    (h2 : pyReplace arch "deit" "vit" ∉ xcit_list)
    (h3 : pyReplace arch "deit" "vit" ∉ torchvision_keys) :
    selectArch arch vits_keys xcit_list torchvision_keys
      = ArchSelection.mk none
          ["Unknow architecture: " ++ pyReplace arch "deit" "vit"] false := by
  unfold selectArch
  simp [h1, h2, h3]

/-- Witness for C9 at a concrete unknown architecture name. -/
theorem c9_unknown_arch_not_fatal_witness :
    selectArch "resnet999x" ["vit_tiny", "vit_small", "vit_base"]
        ["xcit_small_12_p16"] ["resnet18", "resnet50"]
      = ArchSelection.mk none ["Unknow architecture: resnet999x"] false :=
  (c9_unknown_arch_not_fatal "resnet999x" ["vit_tiny", "vit_small", "vit_base"]
    ["xcit_small_12_p16"] ["resnet18", "resnet50"]
    (by decide) (by decide) (by decide)).trans (by decide)

theorem zipWith_const_left {α β : Type} :
    ∀ (as : List α) (bs : List β), as.length ≤ bs.length →
      List.zipWith (fun a _ => a) as bs = as := by
  intro as
  induction as with
  | nil => intro bs h; simp
  | cons a at' ih =>
    intro bs h
    cases bs with
    | nil => simp at h
    | cons b bt =>
      simp only [List.zipWith_cons_cons]
      rw [ih bt (by simpa using h)]

/-- C10: a call to `DINOLoss.forward` leaves every field of the loss state
unchanged except the `center` buffer (`student_temp`, `center_momentum`,
`ncrops`, `teacher_temp_schedule` are all preserved); consequently when
`center_momentum = 1` the `center` buffer itself is also unchanged, whatever
the inputs (shape-compatible: the all-reduced batch center is at least as
long as `center`, as every well-formed torch broadcast guarantees). -/
theorem c10_forward_frame (Fn : TorchFunctional) (Col : Collective)
    (L : DINOLoss) (sOut tOut : Mat) (epoch : ℕ)
    (hlen : L.center.length ≤ (Col.all_reduce (colSum tOut)).length) :
    ((L.forward Fn Col sOut tOut epoch).2.student_temp = L.student_temp ∧
     (L.forward Fn Col sOut tOut epoch).2.center_momentum = L.center_momentum ∧
     (L.forward Fn Col sOut tOut epoch).2.ncrops = L.ncrops ∧
     (L.forward Fn Col sOut tOut epoch).2.teacher_temp_schedule
       = L.teacher_temp_schedule) ∧
    (L.center_momentum = 1 → (L.forward Fn Col sOut tOut epoch).2.center = L.center) := by
  refine ⟨⟨rfl, rfl, rfl, rfl⟩, ?_⟩
  intro hcm
  show (L.update_center Col tOut).center = L.center
  unfold DINOLoss.update_center
  simp only [hcm, mul_one, sub_self, mul_zero, add_zero]
  exact zipWith_const_left L.center _ (by simpa using hlen)

/-- Witness for C10 with `center_momentum = 1` at a concrete input. -/
theorem c10_forward_frame_witness :
    ((DINOLoss.mk 1 1 2 [0] [1]).forward fnId colId [[1], [2]] [[5]] 0).2.ncrops
      = (DINOLoss.mk 1 1 2 [0] [1]).ncrops ∧
    ((DINOLoss.mk 1 1 2 [0] [1]).forward fnId colId [[1], [2]] [[5]] 0).2.teacher_temp_schedule
      = (DINOLoss.mk 1 1 2 [0] [1]).teacher_temp_schedule ∧
    ((DINOLoss.mk 1 1 2 [0] [1]).forward fnId colId [[1], [2]] [[5]] 0).2.center
      = (DINOLoss.mk 1 1 2 [0] [1]).center := by
  have h := c10_forward_frame fnId colId (DINOLoss.mk 1 1 2 [0] [1])
    [[1], [2]] [[5]] 0 (by decide)
  exact ⟨h.1.2.2.1, h.1.2.2.2, h.2 rfl⟩
